import Mathlib

/-!
Verification of the holder-design layer pipeline against its specification.

The Python source is embedded shallowly: PIL RGBA images become a structure
holding a width, a height and a pixel function; per-pixel library primitives
(ImageChops.multiply, ImageChops.subtract, ImageFilter.MaxFilter(3),
ImageOps.mirror, ImageOps.flip, Image.crop, Image.getbbox) are translated to
the corresponding arithmetic on bytes, and each pipeline routine is translated
function by function from the repository's source files.
-/

namespace HolderDesign

/-- Pixel of an RGBA8 raster; channel values are byte values 0..255. -/
structure Pix where
  r : Nat
  g : Nat
  b : Nat
  a : Nat
  deriving DecidableEq, Repr

instance : Inhabited Pix := ⟨⟨0, 0, 0, 0⟩⟩

/-- RGBA raster: width, height and a pixel function. Pixels outside
`[0,width) x [0,height)` are never read by the embedded operations. -/
structure PImage where
  width : Nat
  height : Nat
  px : Nat → Nat → Pix

/-- Row-major pixel list of an image, as produced by PIL `Image.getdata()`:
index `i` holds the pixel at column `i % width`, row `i / width`. -/
def getdata (im : PImage) : List Pix :=
  (List.range (im.width * im.height)).map (fun i => im.px (i % im.width) (i / im.width))

/-- Channel selector matching the Python indexing `pixel[channel_idx]`
for an RGBA tuple: 0 = R, 1 = G, 2 = B, 3 (and anything else) = A. -/
def pixelChannel (p : Pix) (idx : Nat) : Nat :=
  match idx with
  | 0 => p.r
  | 1 => p.g
  | 2 => p.b
  | _ => p.a

/-- PIL `ImageOps.mirror`: left-right flip about the vertical center line. -/
def mirrorH (im : PImage) : PImage :=
  { width := im.width, height := im.height,
    px := fun x y => im.px (im.width - 1 - x) y }

/-- PIL `ImageOps.flip`: top-bottom flip about the horizontal center line. -/
def flipV (im : PImage) : PImage :=
  { width := im.width, height := im.height,
    px := fun x y => im.px x (im.height - 1 - y) }

/-- PIL `image.crop((0, 0, cw, ch))`: keep the top-left `cw x ch` region. -/
def cropTL (im : PImage) (cw ch : Nat) : PImage :=
  { width := cw, height := ch, px := im.px }

/-- PIL `image.crop((l, t, r, b))`: the box with exclusive right/bottom edge. -/
def cropBox (im : PImage) (l t r b : Nat) : PImage :=
  { width := r - l, height := b - t, px := fun x y => im.px (x + l) (y + t) }

/-- Byte product `a*b/255` with rounding, as computed by PIL's `MULDIV255`
macro (the kernel of `ImageChops.multiply`, used as mask intersection in
`PSDCropper._crop_part_with_view_mask`): `tmp = a*b + 128;
result = ((tmp >> 8) + tmp) >> 8`. -/
def muldiv255 (a b : Nat) : Nat :=
  let tmp := a * b + 128
  (tmp / 256 + tmp) / 256

/-- Per-pixel binarization from `PrecisePixelStroker.create_precise_stroke_mask`:
`alpha.point(lambda x: 255 if x > 0 else 0)`. -/
def binarizeVal (v : Nat) : Nat :=
  if v > 0 then 255 else 0

/-- Pixelwise mask intersection as implemented: `ImageChops.multiply` of the
two alpha masks (`intersect_mask = ImageChops.multiply(part_alpha_region,
mask_region)` in `psd_cropper.py`). -/
def intersectMask (m1 m2 : Nat → Nat → Nat) : Nat → Nat → Nat :=
  fun x y => muldiv255 (m1 x y) (m2 x y)

/-- Pixelwise binarization of a mask. -/
def binarizeMask (m : Nat → Nat → Nat) : Nat → Nat → Nat :=
  fun x y => binarizeVal (m x y)

/-! ## Name sanitization (`src/backend/utils/strings.py`) and role lookup -/

/-- Python `str.lower` restricted to the ASCII letters (role names and the
names compared against them in the pipeline are ASCII). -/
def pyLowerChar (c : Char) : Char :=
  if 65 ≤ c.toNat ∧ c.toNat ≤ 90 then Char.ofNat (c.toNat + 32) else c

/-- Python `str.lower` on a character list. -/
def pyLower (s : List Char) : List Char := s.map pyLowerChar

/-- Python `str.strip()` whitespace test, for the characters that can survive
the control-character filter of `sanitize_name` (ASCII whitespace). -/
def isPySpace (c : Char) : Bool :=
  c ∈ ([' ', '\t', '\n', '\r', '\x0b', '\x0c'] : List Char)

/-- Python `str.strip()`: drop leading and trailing whitespace. -/
def pyStrip (s : List Char) : List Char :=
  ((s.dropWhile isPySpace).reverse.dropWhile isPySpace).reverse

/-- Translation of `sanitize_name` from `src/backend/utils/strings.py`:
remove NUL bytes, remove control characters except tab/LF/CR, strip
surrounding whitespace, and fall back to `unnamed_layer` when empty. -/
def sanitize_name (name : List Char) : List Char :=
  if name = [] then "unnamed_layer".toList
  else
    let cleaned := name.filter (fun ch => ch ≠ '\x00')
    let cleaned := cleaned.filter
      (fun ch => 32 ≤ ch.toNat || ch ∈ (['\t', '\n', '\r'] : List Char))
    let cleaned := pyStrip cleaned
    if cleaned = [] then "unnamed_layer".toList else cleaned

/-- The five reserved role names (`required_layers` in the sources). -/
def requiredRoles : List (List Char) :=
  ["view".toList, "part1".toList, "part2".toList, "part3".toList, "part4".toList]

/-- The four part roles (`part_layers` in `psd_replacer.py`). -/
def partRoles : List (List Char) :=
  ["part1".toList, "part2".toList, "part3".toList, "part4".toList]

/-- Role key used by the sanitizing lookup sites (`InsideTransformer`,
`PSDReplacer`): `sanitize_name(layer.name).lower()`. -/
def roleOf (nm : List Char) : List Char := pyLower (sanitize_name nm)

/-- Role key used by `BinaryPSDTransformer._detect_required_layers`
(`transform_to_outside.py`): `layer.name.lower()`, with no sanitization. -/
def outsideRoleOf (nm : List Char) : List Char := pyLower nm

/-- Decoded layer as delivered by the external parser: name, RGBA raster of
the layer's own bounding-box size, and the bounding box's top-left corner. -/
structure Layer where
  name : List Char
  image : PImage
  pos : Int × Int

/-- Ordered layer list (bottom first) plus the canvas size. -/
structure LayerSet where
  canvasW : Nat
  canvasH : Nat
  layers : List Layer

/-- Dictionary lookup built by the role-detection loops of
`InsideTransformer` / `PSDReplacer`: iterate the layers in order and keep the
last layer whose sanitized lowercased name equals the role. -/
def layerInfoFind (layers : List Layer) (role : List Char) : Option Layer :=
  layers.foldl (fun acc l => if roleOf l.name = role then some l else acc) none

/-- Lookup of `PSDCropper._find_layer_by_name`: the first layer whose raw
(unsanitized) name equals the requested name. -/
def cropperFindLayer (layers : List Layer) (nm : List Char) : Option Layer :=
  layers.find? (fun l => l.name = nm)

/-- Role-detection dictionary of `BinaryPSDTransformer._detect_required_layers`:
last layer whose lowercased (but not sanitized) name equals the role. -/
def outsideFind (layers : List Layer) (role : List Char) : Option Layer :=
  layers.foldl (fun acc l => if outsideRoleOf l.name = role then some l else acc) none

/-- Dictionary keyed by raw layer name, as built by
`BinaryPSDTransformer._calculate_final_positions` (last entry wins). -/
def lastByName (layers : List Layer) (nm : List Char) : Option Layer :=
  layers.foldl (fun acc l => if l.name = nm then some l else acc) none

theorem lastWins_isSome (layers : List Layer) (p : Layer → Prop) [DecidablePred p]
    (acc : Option Layer) :
    (layers.foldl (fun a l => if p l then some l else a) acc).isSome ↔
      acc.isSome = true ∨ ∃ l ∈ layers, p l := by
  induction layers generalizing acc with
  | nil => simp
  | cons h t ih =>
    rw [List.foldl_cons, ih]
    by_cases hp : p h <;> simp [hp]

/-! ## Claim C3: mask intersection idempotence -/

/-- C3 counterexample: the claim `intersect(m, m) == binarize(m)` for every
mask fails at the constant mask 128: the implemented multiply-and-normalize
gives `round(128*128/255) = 64`, while binarize gives 255. -/
theorem intersect_idempotence_counterexample :
    intersectMask (fun _ _ => 128) (fun _ _ => 128) 0 0 ≠
      binarizeMask (fun _ _ => 128) 0 0 := by
  decide

/-- C3 amended: for every binary mask (all pixel values 0 or 255),
`intersect(m, m)` equals `binarize(m)` pixelwise. -/
theorem intersect_idempotent_on_binary (m : Nat → Nat → Nat)
    (hbin : ∀ x y, m x y = 0 ∨ m x y = 255) :
    ∀ x y, intersectMask m m x y = binarizeMask m x y := by
  intro x y
  rcases hbin x y with h | h <;>
    simp [intersectMask, binarizeMask, muldiv255, binarizeVal, h]

/-- C3 witness: the amended theorem applied to the constant opaque mask. -/
theorem intersect_idempotent_on_binary_witness :
    intersectMask (fun _ _ => 255) (fun _ _ => 255) 3 5 =
      binarizeMask (fun _ _ => 255) 3 5 :=
  intersect_idempotent_on_binary (fun _ _ => 255) (fun _ _ => Or.inr rfl) 3 5

/-! ## Claim C7: uniform name sanitization across role-lookup sites -/

/-- Trivial raster used to build concrete layers in closed statements. -/
def blankImage : PImage := ⟨0, 0, fun _ _ => ⟨0, 0, 0, 0⟩⟩

/-- Layer whose raw name is `view` followed by a trailing space. -/
def trailingSpaceViewLayer : Layer :=
  { name := "view ".toList, image := blankImage, pos := (0, 0) }

/-- C7 counterexample: the layer named `view ` (trailing space) has sanitized
lowercased name exactly `view`, yet the cropper's lookup
(`PSDCropper._find_layer_by_name`, which compares raw names with `==`) does
not recognize it, so not every role-lookup site sanitizes before comparing. -/
theorem name_sanitization_counterexample :
    roleOf ("view ".toList) = "view".toList ∧
      cropperFindLayer [trailingSpaceViewLayer] ("view".toList) = none := by
  exact ⟨by decide, rfl⟩

/-- C7 amended: a layer whose sanitized lowercased name equals a role is
recognized by the sanitizing lookup sites (`InsideTransformer` validator and
transformer, `PSDReplacer`), which all key on `sanitize_name(name).lower()`;
but `PSDCropper` recognizes a layer under a role iff its raw name equals the
role exactly, and `BinaryPSDTransformer` (outward) iff its merely-lowercased
name equals the role. -/
theorem name_sanitization_amended (layers : List Layer) (l : Layer) (r : List Char)
    (hreq : r ∈ requiredRoles) (hmem : l ∈ layers) (hrole : roleOf l.name = r) :
    (layerInfoFind layers r).isSome ∧
      ((cropperFindLayer layers r).isSome ↔ ∃ l2 ∈ layers, l2.name = r) ∧
      ((outsideFind layers r).isSome ↔ ∃ l2 ∈ layers, outsideRoleOf l2.name = r) := by
  refine ⟨?_, ?_, ?_⟩
  · rw [show (layerInfoFind layers r) =
        layers.foldl (fun a l2 => if roleOf l2.name = r then some l2 else a) none from rfl,
      lastWins_isSome layers (fun l2 => roleOf l2.name = r) none]
    exact Or.inr ⟨l, hmem, hrole⟩
  · simp [cropperFindLayer, List.find?_isSome]
  · rw [show (outsideFind layers r) =
        layers.foldl (fun a l2 => if outsideRoleOf l2.name = r then some l2 else a) none from rfl,
      lastWins_isSome layers (fun l2 => outsideRoleOf l2.name = r) none]
    simp

/-- C7 witness: the amended theorem applied to the single-layer list holding
the trailing-space `view ` layer: the sanitizing site recognizes it while the
cropper site does not (no layer's raw name is exactly `view`). -/
theorem name_sanitization_amended_witness :
    (layerInfoFind [trailingSpaceViewLayer] ("view".toList)).isSome := by
  exact (name_sanitization_amended [trailingSpaceViewLayer] trailingSpaceViewLayer
    ("view".toList) (by decide) (List.mem_singleton.mpr rfl) (by decide)).1

/-! ## Claim C2: morphological stroke (`src/scripts/precise_pixel_stroke.py`)

Masks are modelled as functions `Nat → Nat → Nat` (byte value per pixel) on a
`W x H` canvas. PIL's `ImageFilter.MaxFilter(3)` takes, for every in-canvas
pixel, the maximum over its 3x3 neighborhood; the filter pads by replicating
edge pixels, which for in-canvas pixels coincides with clamping the
neighborhood to the canvas, as done here. -/

/-- Indicator mask of the axis-aligned rectangle `[a,b] x [c,d]` (value 255
inside, 0 outside) — the binarized alpha of an opaque rectangle. -/
def rectInd (a b c d : Nat) : Nat → Nat → Nat :=
  fun x y => if a ≤ x ∧ x ≤ b ∧ c ≤ y ∧ y ≤ d then 255 else 0

theorem rectInd_eq255_iff (a b c d x y : Nat) :
    rectInd a b c d x y = 255 ↔ (a ≤ x ∧ x ≤ b ∧ c ≤ y ∧ y ≤ d) := by
  unfold rectInd; split <;> simp_all

theorem rectInd_eq0_iff (a b c d x y : Nat) :
    rectInd a b c d x y = 0 ↔ ¬(a ≤ x ∧ x ≤ b ∧ c ≤ y ∧ y ≤ d) := by
  unfold rectInd; split <;> simp_all

theorem rectInd_ne0_iff (a b c d x y : Nat) :
    rectInd a b c d x y ≠ 0 ↔ (a ≤ x ∧ x ≤ b ∧ c ≤ y ∧ y ≤ d) := by
  unfold rectInd; split <;> simp_all

theorem rectInd_le (a b c d x y : Nat) : rectInd a b c d x y ≤ 255 := by
  unfold rectInd; split <;> simp

/-- One 3x3 max-filter pass (`stroke_mask.filter(ImageFilter.MaxFilter(3))`). -/
def dilate (W H : Nat) (f : Nat → Nat → Nat) (x y : Nat) : Nat :=
  max (max (max (f (x-1) (y-1)) (f (x-1) y))
           (max (f (x-1) (min (y+1) (H-1))) (f x (y-1))))
      (max (max (f x y) (f x (min (y+1) (H-1))))
           (max (f (min (x+1) (W-1)) (y-1))
                (max (f (min (x+1) (W-1)) y) (f (min (x+1) (W-1)) (min (y+1) (H-1))))))

/-- The dilation loop `for i in range(stroke_width): mask = maxfilter(mask)`. -/
def dilateIter (W H : Nat) (f : Nat → Nat → Nat) : Nat → Nat → Nat → Nat
  | 0 => f
  | k + 1 => dilate W H (dilateIter W H f k)

/-- PIL `ImageChops.subtract` with default scale/offset: pixelwise
difference clipped to the byte range. -/
def byteSub (a b : Nat) : Nat := min (a - b) 255

/-- Pixelwise subtraction of masks (`ImageChops.subtract(stroke_mask,
binary_mask)`). -/
def subtractImg (f g : Nat → Nat → Nat) : Nat → Nat → Nat :=
  fun x y => byteSub (f x y) (g x y)

/-- Translation of `PrecisePixelStroker.create_precise_stroke_mask`: binarize
the alpha mask, dilate `k` times with the 3x3 max filter, subtract the
original binary mask. -/
def preciseStrokeMask (W H k : Nat) (alpha : Nat → Nat → Nat) : Nat → Nat → Nat :=
  subtractImg (dilateIter W H (binarizeMask alpha) k) (binarizeMask alpha)

/-- Number of nonzero pixels of a mask on the canvas (the script's
`sum(1 for pixel in mask.getdata() if pixel > 0)`). -/
def countNZ (W H : Nat) (f : Nat → Nat → Nat) : Nat :=
  (((Finset.range W) ×ˢ (Finset.range H)).filter (fun p => f p.1 p.2 ≠ 0)).card

theorem le_dilate (W H : Nat) (f : Nat → Nat → Nat) (x y x' y' : Nat)
    (hx' : x' = x - 1 ∨ x' = x ∨ x' = min (x+1) (W-1))
    (hy' : y' = y - 1 ∨ y' = y ∨ y' = min (y+1) (H-1)) :
    f x' y' ≤ dilate W H f x y := by
  rcases hx' with h | h | h <;> rcases hy' with g | g | g <;> subst h <;> subst g <;>
    · unfold dilate; omega

theorem dilate_le_255 (W H : Nat) (f : Nat → Nat → Nat) (x y : Nat)
    (hf : ∀ u v, f u v ≤ 255) : dilate W H f x y ≤ 255 := by
  have h1 := hf (x-1) (y-1); have h2 := hf (x-1) y
  have h3 := hf (x-1) (min (y+1) (H-1)); have h4 := hf x (y-1)
  have h5 := hf x y; have h6 := hf x (min (y+1) (H-1))
  have h7 := hf (min (x+1) (W-1)) (y-1); have h8 := hf (min (x+1) (W-1)) y
  have h9 := hf (min (x+1) (W-1)) (min (y+1) (H-1))
  unfold dilate; omega

theorem dilate_eq_zero (W H : Nat) (f : Nat → Nat → Nat) (x y : Nat)
    (h1 : f (x-1) (y-1) = 0) (h2 : f (x-1) y = 0)
    (h3 : f (x-1) (min (y+1) (H-1)) = 0) (h4 : f x (y-1) = 0)
    (h5 : f x y = 0) (h6 : f x (min (y+1) (H-1)) = 0)
    (h7 : f (min (x+1) (W-1)) (y-1) = 0) (h8 : f (min (x+1) (W-1)) y = 0)
    (h9 : f (min (x+1) (W-1)) (min (y+1) (H-1)) = 0) :
    dilate W H f x y = 0 := by
  unfold dilate; omega

/-- One dilation pass turns the indicator of a rectangle that keeps one pixel
of margin inside the canvas into the indicator of the rectangle grown by one
pixel on every side. -/
theorem dilate_rectInd (W H a b c d : Nat)
    (ha : 1 ≤ a) (hb : b + 2 ≤ W) (hc : 1 ≤ c) (hd : d + 2 ≤ H)
    (hab : a ≤ b) (hcd : c ≤ d) :
    ∀ x y, x < W → y < H →
      dilate W H (rectInd a b c d) x y = rectInd (a-1) (b+1) (c-1) (d+1) x y := by
  intro x y hx hy
  by_cases hin : (a-1 ≤ x ∧ x ≤ b+1 ∧ c-1 ≤ y ∧ y ≤ d+1)
  · obtain ⟨x', hxm, hxa, hxb⟩ :
        ∃ x', (x' = x - 1 ∨ x' = x ∨ x' = min (x+1) (W-1)) ∧ a ≤ x' ∧ x' ≤ b := by
      rcases Nat.lt_or_ge x a with h | h
      · exact ⟨min (x+1) (W-1), Or.inr (Or.inr rfl), by omega, by omega⟩
      · rcases Nat.lt_or_ge b x with h2 | h2
        · exact ⟨x - 1, Or.inl rfl, by omega, by omega⟩
        · exact ⟨x, Or.inr (Or.inl rfl), by omega, by omega⟩
    obtain ⟨y', hym, hyc, hyd⟩ :
        ∃ y', (y' = y - 1 ∨ y' = y ∨ y' = min (y+1) (H-1)) ∧ c ≤ y' ∧ y' ≤ d := by
      rcases Nat.lt_or_ge y c with h | h
      · exact ⟨min (y+1) (H-1), Or.inr (Or.inr rfl), by omega, by omega⟩
      · rcases Nat.lt_or_ge d y with h2 | h2
        · exact ⟨y - 1, Or.inl rfl, by omega, by omega⟩
        · exact ⟨y, Or.inr (Or.inl rfl), by omega, by omega⟩
    have hval : rectInd a b c d x' y' = 255 :=
      (rectInd_eq255_iff a b c d x' y').mpr ⟨hxa, hxb, hyc, hyd⟩
    have hge : 255 ≤ dilate W H (rectInd a b c d) x y := by
      have := le_dilate W H (rectInd a b c d) x y x' y' hxm hym
      omega
    have hle : dilate W H (rectInd a b c d) x y ≤ 255 :=
      dilate_le_255 W H _ x y (fun u v => rectInd_le a b c d u v)
    have hrhs : rectInd (a-1) (b+1) (c-1) (d+1) x y = 255 :=
      (rectInd_eq255_iff _ _ _ _ x y).mpr hin
    omega
  · have hz : ∀ x' y', (x' = x - 1 ∨ x' = x ∨ x' = min (x+1) (W-1)) →
        (y' = y - 1 ∨ y' = y ∨ y' = min (y+1) (H-1)) →
        rectInd a b c d x' y' = 0 := by
      intro x' y' hxm hym
      refine (rectInd_eq0_iff a b c d x' y').mpr ?_
      omega
    have hrhs : rectInd (a-1) (b+1) (c-1) (d+1) x y = 0 :=
      (rectInd_eq0_iff _ _ _ _ x y).mpr hin
    rw [hrhs]
    exact dilate_eq_zero W H _ x y
      (hz _ _ (Or.inl rfl) (Or.inl rfl))
      (hz _ _ (Or.inl rfl) (Or.inr (Or.inl rfl)))
      (hz _ _ (Or.inl rfl) (Or.inr (Or.inr rfl)))
      (hz _ _ (Or.inr (Or.inl rfl)) (Or.inl rfl))
      (hz _ _ (Or.inr (Or.inl rfl)) (Or.inr (Or.inl rfl)))
      (hz _ _ (Or.inr (Or.inl rfl)) (Or.inr (Or.inr rfl)))
      (hz _ _ (Or.inr (Or.inr rfl)) (Or.inl rfl))
      (hz _ _ (Or.inr (Or.inr rfl)) (Or.inr (Or.inl rfl)))
      (hz _ _ (Or.inr (Or.inr rfl)) (Or.inr (Or.inr rfl)))

theorem dilate_congr (W H : Nat) (f g : Nat → Nat → Nat)
    (hfg : ∀ x y, x < W → y < H → f x y = g x y) :
    ∀ x y, x < W → y < H → dilate W H f x y = dilate W H g x y := by
  intro x y hx hy
  unfold dilate
  rw [hfg (x-1) (y-1) (by omega) (by omega), hfg (x-1) y (by omega) (by omega),
    hfg (x-1) (min (y+1) (H-1)) (by omega) (by omega), hfg x (y-1) (by omega) (by omega),
    hfg x y (by omega) (by omega), hfg x (min (y+1) (H-1)) (by omega) (by omega),
    hfg (min (x+1) (W-1)) (y-1) (by omega) (by omega),
    hfg (min (x+1) (W-1)) y (by omega) (by omega),
    hfg (min (x+1) (W-1)) (min (y+1) (H-1)) (by omega) (by omega)]

/-- Dilating `k` times the indicator of a rectangle that keeps a `k`-pixel
margin inside the canvas (plus one spare pixel) grows it by `k` on every side. -/
theorem dilateIter_rectInd (W H a b c d : Nat) :
    ∀ k, k ≤ a → b + k + 1 ≤ W → k ≤ c → d + k + 1 ≤ H → a ≤ b → c ≤ d →
    ∀ x y, x < W → y < H →
      dilateIter W H (rectInd a b c d) k x y = rectInd (a-k) (b+k) (c-k) (d+k) x y := by
  intro k
  induction k with
  | zero => intro _ _ _ _ _ _ x y _ _; simp [dilateIter]
  | succ k ih =>
    intro ha hb hc hd hab hcd x y hx hy
    have hcong := dilate_congr W H (dilateIter W H (rectInd a b c d) k)
      (rectInd (a-k) (b+k) (c-k) (d+k))
      (fun u v hu hv => ih (by omega) (by omega) (by omega) (by omega) hab hcd u v hu hv)
      x y hx hy
    rw [show dilateIter W H (rectInd a b c d) (k+1)
          = dilate W H (dilateIter W H (rectInd a b c d) k) from rfl, hcong,
      dilate_rectInd W H (a-k) (b+k) (c-k) (d+k) (by omega) (by omega) (by omega)
        (by omega) (by omega) (by omega) x y hx hy]
    have h1 : a - k - 1 = a - (k+1) := by omega
    have h2 : b + k + 1 = b + (k+1) := by omega
    have h3 : c - k - 1 = c - (k+1) := by omega
    have h4 : d + k + 1 = d + (k+1) := by omega
    rw [h1, h2, h3, h4]

theorem dilateIter_congr (W H : Nat) (f g : Nat → Nat → Nat)
    (hfg : ∀ x y, x < W → y < H → f x y = g x y) :
    ∀ k x y, x < W → y < H → dilateIter W H f k x y = dilateIter W H g k x y := by
  intro k
  induction k with
  | zero => exact hfg
  | succ k ih => exact dilate_congr W H _ _ ih

/-- An alpha channel whose support is exactly the rectangle `[a,b] x [c,d]`
binarizes to the rectangle indicator on the canvas. -/
theorem binarize_support (W H a b c d : Nat) (alpha : Nat → Nat → Nat)
    (halpha : ∀ x y, x < W → y < H →
      (alpha x y ≠ 0 ↔ (a ≤ x ∧ x ≤ b ∧ c ≤ y ∧ y ≤ d))) :
    ∀ x y, x < W → y < H → binarizeMask alpha x y = rectInd a b c d x y := by
  intro x y hx hy
  have h := halpha x y hx hy
  unfold binarizeMask binarizeVal rectInd
  split_ifs <;> omega

/-- Pointwise value of the precise stroke mask for a rectangle-supported
alpha that keeps enough margin from the canvas edges: 255 exactly on the
`k`-annulus around the rectangle, 0 elsewhere. -/
theorem preciseStrokeMask_eq (W H a b c d k : Nat) (alpha : Nat → Nat → Nat)
    (ha : k ≤ a) (hb : b + k + 1 ≤ W) (hc : k ≤ c) (hd : d + k + 1 ≤ H)
    (hab : a ≤ b) (hcd : c ≤ d)
    (halpha : ∀ x y, x < W → y < H →
      (alpha x y ≠ 0 ↔ (a ≤ x ∧ x ≤ b ∧ c ≤ y ∧ y ≤ d))) :
    ∀ x y, x < W → y < H →
      preciseStrokeMask W H k alpha x y =
        if ((a-k ≤ x ∧ x ≤ b+k ∧ c-k ≤ y ∧ y ≤ d+k) ∧
            ¬(a ≤ x ∧ x ≤ b ∧ c ≤ y ∧ y ≤ d)) then 255 else 0 := by
  intro x y hx hy
  have hbin := binarize_support W H a b c d alpha halpha
  have hdil : dilateIter W H (binarizeMask alpha) k x y = rectInd (a-k) (b+k) (c-k) (d+k) x y := by
    rw [dilateIter_congr W H (binarizeMask alpha) (rectInd a b c d) hbin k x y hx hy]
    exact dilateIter_rectInd W H a b c d k ha hb hc hd hab hcd x y hx hy
  have hb0 := hbin x y hx hy
  unfold preciseStrokeMask subtractImg byteSub
  rw [hdil, hb0]
  split_ifs with hcond
  · -- inside the annulus: grown value 255, base value 0
    have v1 : rectInd (a-k) (b+k) (c-k) (d+k) x y = 255 :=
      (rectInd_eq255_iff (a-k) (b+k) (c-k) (d+k) x y).mpr hcond.1
    have v2 : rectInd a b c d x y = 0 :=
      (rectInd_eq0_iff a b c d x y).mpr hcond.2
    rw [v1, v2]; decide
  · -- outside the annulus: either outside the grown rectangle (both 0) or
    -- inside the base rectangle (both 255)
    by_cases hbase : (a ≤ x ∧ x ≤ b ∧ c ≤ y ∧ y ≤ d)
    · have v1 : rectInd (a-k) (b+k) (c-k) (d+k) x y = 255 :=
        (rectInd_eq255_iff (a-k) (b+k) (c-k) (d+k) x y).mpr (by omega)
      have v2 : rectInd a b c d x y = 255 :=
        (rectInd_eq255_iff a b c d x y).mpr hbase
      rw [v1, v2]; decide
    · have v1 : rectInd (a-k) (b+k) (c-k) (d+k) x y = 0 :=
        (rectInd_eq0_iff (a-k) (b+k) (c-k) (d+k) x y).mpr (by tauto)
      have v2 : rectInd a b c d x y = 0 :=
        (rectInd_eq0_iff a b c d x y).mpr hbase
      rw [v1, v2]; decide

theorem countNZ_congr (W H : Nat) (f g : Nat → Nat → Nat)
    (h : ∀ x y, x < W → y < H → f x y = g x y) :
    countNZ W H f = countNZ W H g := by
  unfold countNZ
  congr 1
  apply Finset.filter_congr
  intro p hp
  simp only [Finset.mem_product, Finset.mem_range] at hp
  rw [h p.1 p.2 hp.1 hp.2]

theorem ite_255_ne_zero_iff (P : Prop) [Decidable P] :
    ((if P then (255 : Nat) else 0) ≠ 0) ↔ P := by
  split <;> simp_all

/-- Number of canvas pixels of a rectangular annulus indicator, when the
outer rectangle lies inside the canvas and contains the inner one. -/
theorem countNZ_ite_annulus (W H a' b' c' d' a b c d : Nat)
    (hbW : b' < W) (hdH : d' < H)
    (haa : a' ≤ a) (hbb : b ≤ b') (hcc : c' ≤ c) (hdd : d ≤ d')
    (hab : a ≤ b) (hcd : c ≤ d) :
    countNZ W H (fun x y =>
        if ((a' ≤ x ∧ x ≤ b' ∧ c' ≤ y ∧ y ≤ d') ∧
            ¬(a ≤ x ∧ x ≤ b ∧ c ≤ y ∧ y ≤ d)) then 255 else 0)
      = (b' + 1 - a') * (d' + 1 - c') - (b + 1 - a) * (d + 1 - c) := by
  unfold countNZ
  have hset : (((Finset.range W) ×ˢ (Finset.range H)).filter (fun p =>
        (if ((a' ≤ p.1 ∧ p.1 ≤ b' ∧ c' ≤ p.2 ∧ p.2 ≤ d') ∧
            ¬(a ≤ p.1 ∧ p.1 ≤ b ∧ c ≤ p.2 ∧ p.2 ≤ d)) then (255 : Nat) else 0) ≠ 0))
      = ((Finset.Icc a' b') ×ˢ (Finset.Icc c' d')) \ ((Finset.Icc a b) ×ˢ (Finset.Icc c d)) := by
    ext p
    simp only [Finset.mem_filter, Finset.mem_product, Finset.mem_range,
      Finset.mem_sdiff, Finset.mem_Icc, ite_255_ne_zero_iff]
    omega
  rw [hset, Finset.card_sdiff]
  · rw [Finset.card_product, Finset.card_product, Nat.card_Icc, Nat.card_Icc,
      Nat.card_Icc, Nat.card_Icc]
  · intro p hp
    simp only [Finset.mem_product, Finset.mem_Icc] at hp ⊢
    omega

/-- C2: for an isolated opaque `N x N` square at distance at least `2k+2`
from every canvas edge, the precise stroke mask of width `k` is supported on
exactly the `k`-pixel annulus around the square (its outer boundary is `k`
pixels from the square's boundary on all sides) and has `(N+2k)^2 - N^2`
nonzero pixels. The square occupies columns `ax..ax+N-1` and rows
`ay..ay+N-1`. -/
theorem stroke_exactness (W H ax ay N k : Nat) (alpha : Nat → Nat → Nat)
    (hN : 1 ≤ N)
    (hleft : 2*k + 2 ≤ ax) (htop : 2*k + 2 ≤ ay)
    (hright : ax + N + 2*k + 2 ≤ W) (hbottom : ay + N + 2*k + 2 ≤ H)
    (halpha : ∀ x y, x < W → y < H →
      (alpha x y ≠ 0 ↔ (ax ≤ x ∧ x ≤ ax + N - 1 ∧ ay ≤ y ∧ y ≤ ay + N - 1))) :
    (∀ x y, x < W → y < H →
      (preciseStrokeMask W H k alpha x y ≠ 0 ↔
        ((ax - k ≤ x ∧ x ≤ ax + N - 1 + k ∧ ay - k ≤ y ∧ y ≤ ay + N - 1 + k) ∧
          ¬(ax ≤ x ∧ x ≤ ax + N - 1 ∧ ay ≤ y ∧ y ≤ ay + N - 1)))) ∧
    countNZ W H (preciseStrokeMask W H k alpha) = (N + 2*k)^2 - N^2 := by
  have hmask := preciseStrokeMask_eq W H ax (ax + N - 1) ay (ay + N - 1) k alpha
    (by omega) (by omega) (by omega) (by omega) (by omega) (by omega) halpha
  constructor
  · intro x y hx hy
    rw [hmask x y hx hy, ite_255_ne_zero_iff]
  · rw [countNZ_congr W H _ _ hmask,
      countNZ_ite_annulus W H (ax - k) (ax + N - 1 + k) (ay - k) (ay + N - 1 + k)
        ax (ax + N - 1) ay (ay + N - 1) (by omega) (by omega) (by omega) (by omega)
        (by omega) (by omega) (by omega) (by omega)]
    have e1 : ax + N - 1 + k + 1 - (ax - k) = N + 2*k := by omega
    have e2 : ay + N - 1 + k + 1 - (ay - k) = N + 2*k := by omega
    have e3 : ax + N - 1 + 1 - ax = N := by omega
    have e4 : ay + N - 1 + 1 - ay = N := by omega
    rw [e1, e2, e3, e4, pow_two, pow_two]

/-- C2 witness: stroke width 3 on a fully opaque 50 x 50 square (at
position (8,8) on a 66 x 66 canvas, 8 = 2*3+2 pixels from every edge)
yields ring pixel count 56^2 - 50^2 = 636. -/
theorem stroke_exactness_witness :
    countNZ 66 66 (preciseStrokeMask 66 66 3 (rectInd 8 57 8 57)) = 636 := by
  have h := stroke_exactness 66 66 8 8 50 3 (rectInd 8 57 8 57)
    (by norm_num) (by norm_num) (by norm_num) (by norm_num) (by norm_num)
    (fun x y _ _ => by simpa using rectInd_ne0_iff 8 57 8 57 x y)
  rw [h.2]; norm_num

/-! ## Claim C8: stroke on fully transparent input fails with EmptyInput -/

/-- Alpha channel of an image (`image.split()[3]`). -/
def alphaOf (im : PImage) : Nat → Nat → Nat := fun x y => (im.px x y).a

/-- Count of alpha-positive pixels, the `valid_pixels` computation of
`PrecisePixelStroker.validate_input` and `PNGStrokeProcessor._validate_image`:
`sum(1 for pixel in alpha.getdata() if pixel > 0)`. -/
def alphaCount (im : PImage) : Nat :=
  (getdata im).countP (fun p => p.a > 0)

/-- Structural stroke errors (the spec's `EmptyInput`). -/
inductive StrokeError where
  | emptyInput
  deriving DecidableEq, Repr

/-- Translation of `PrecisePixelStroker.validate_input` (and of
`PNGStrokeProcessor._validate_image`): when no pixel has positive alpha the
operation raises (here: returns the `EmptyInput` error), otherwise the image
passes through. -/
def validateInput (im : PImage) : Except StrokeError PImage :=
  if alphaCount im = 0 then Except.error StrokeError.emptyInput else Except.ok im

/-- Blend of one byte channel as in PIL `Image.paste` with a mask:
`out = MULDIV255(dst, 255 - mask) + MULDIV255(src, mask)`. -/
def blendByte (m dstv srcv : Nat) : Nat :=
  muldiv255 dstv (255 - m) + muldiv255 srcv m

/-- PIL `dst.paste(src, (0, 0), mask)` over the whole canvas: every channel
(including alpha) is blended by the mask value. -/
def pasteMaskFull (dst src : PImage) (mask : Nat → Nat → Nat) : PImage :=
  { width := dst.width, height := dst.height,
    px := fun x y =>
      let m := mask x y
      let s := src.px x y
      let q := dst.px x y
      ⟨blendByte m q.r s.r, blendByte m q.g s.g, blendByte m q.b s.b,
        blendByte m q.a s.a⟩ }

/-- Translation of `PrecisePixelStroker.apply_stroke_color_precise`: paste the
stroke color masked by the ring mask onto a transparent canvas, then paste the
original image masked by its own alpha on top. -/
def applyStrokePrecise (im : PImage) (col : Pix) (mask : Nat → Nat → Nat) : PImage :=
  let strokeLayer : PImage := ⟨im.width, im.height, fun _ _ => col⟩
  let base : PImage := ⟨im.width, im.height, fun _ _ => ⟨0, 0, 0, 0⟩⟩
  pasteMaskFull (pasteMaskFull base strokeLayer mask) im (alphaOf im)

/-- Translation of `PrecisePixelStroker.process` steps 1-3: validate, build
the precise stroke mask of width `k`, apply the stroke color. -/
def strokerProcess (im : PImage) (col : Pix) (k : Nat) : Except StrokeError PImage :=
  match validateInput im with
  | Except.error e => Except.error e
  | Except.ok im2 =>
      Except.ok (applyStrokePrecise im2 col
        (preciseStrokeMask im2.width im2.height k (alphaOf im2)))

/-- The per-layer loop body of `PSDProcessorCore._generate_single_stroke_version`:
a raised stroke error is caught and turned into a pipeline failure
(`return False, ...`), modelled as `none`; success yields the stroked image. -/
def strokePipelineStep (im : PImage) (col : Pix) (k : Nat) : Option PImage :=
  match strokerProcess im col k with
  | Except.error _ => none
  | Except.ok r => some r

theorem alphaCount_eq_zero_of_transparent (im : PImage)
    (h : ∀ x y, x < im.width → y < im.height → (im.px x y).a = 0) :
    alphaCount im = 0 := by
  unfold alphaCount
  rw [List.countP_eq_zero]
  intro p hp
  unfold getdata at hp
  obtain ⟨i, hi, rfl⟩ := List.mem_map.mp hp
  rw [List.mem_range] at hi
  have hw : 0 < im.width := by
    rcases Nat.eq_zero_or_pos im.width with h0 | h0
    · rw [h0, Nat.zero_mul] at hi; omega
    · exact h0
  have hi2 : i < im.height * im.width := by rw [Nat.mul_comm]; exact hi
  have := h (i % im.width) (i / im.width) (Nat.mod_lt i hw)
    ((Nat.div_lt_iff_lt_mul hw).mpr hi2)
  simp [this]

/-- C8: a stroke requested on an input whose alpha channel is zero at every
pixel fails with `EmptyInput` — validation rejects it, the stroke operation
returns the error rather than an output image, and the pipeline step aborts. -/
theorem stroke_empty_input (im : PImage) (col : Pix) (k : Nat)
    (h : ∀ x y, x < im.width → y < im.height → (im.px x y).a = 0) :
    validateInput im = Except.error StrokeError.emptyInput ∧
      strokerProcess im col k = Except.error StrokeError.emptyInput ∧
      strokePipelineStep im col k = none := by
  have hc : alphaCount im = 0 := alphaCount_eq_zero_of_transparent im h
  have hv : validateInput im = Except.error StrokeError.emptyInput := by
    unfold validateInput
    rw [hc]
    rfl
  refine ⟨hv, ?_, ?_⟩
  · unfold strokerProcess
    rw [hv]
  · unfold strokePipelineStep strokerProcess
    rw [hv]

/-- C8 witness: the theorem applied to a concrete fully transparent 2 x 2
image with a white stroke of width 2. -/
theorem stroke_empty_input_witness :
    strokerProcess ⟨2, 2, fun _ _ => ⟨0, 0, 0, 0⟩⟩ ⟨255, 255, 255, 255⟩ 2 =
      Except.error StrokeError.emptyInput :=
  (stroke_empty_input ⟨2, 2, fun _ _ => ⟨0, 0, 0, 0⟩⟩ ⟨255, 255, 255, 255⟩ 2
    (fun _ _ _ _ => rfl)).2.1

/-! ## Claim C9: transparent-margin trim
(`PSDProcessorCore._trim_transparent_edges` in `src/backend/processor_core.py`)

PIL `Image.getbbox()` on an RGBA image computes the bounding box of the
pixels with nonzero alpha (current Pillow semantics, `alpha_only=True`),
returning `None` when every pixel is fully transparent. -/

/-- Canvas positions whose pixel has nonzero alpha. -/
def alphaSet (im : PImage) : Finset (Nat × Nat) :=
  ((Finset.range im.width) ×ˢ (Finset.range im.height)).filter
    (fun p => (im.px p.1 p.2).a ≠ 0)

/-- PIL `composite_image.getbbox()`: `(left, top, right, bottom)` with
exclusive right/bottom edge, or `None` when fully transparent. -/
def getbboxAlpha (im : PImage) : Option (Nat × Nat × Nat × Nat) :=
  if h : (alphaSet im).Nonempty then
    some (((alphaSet im).image Prod.fst).min' (h.image Prod.fst),
          ((alphaSet im).image Prod.snd).min' (h.image Prod.snd),
          ((alphaSet im).image Prod.fst).max' (h.image Prod.fst) + 1,
          ((alphaSet im).image Prod.snd).max' (h.image Prod.snd) + 1)
  else none

/-- Translation of `PSDProcessorCore._trim_transparent_edges` /
`_create_trimmed_psd`: if `getbbox()` is `None` (fully transparent) the
document is left unchanged; if the box covers the whole canvas nothing is
cropped; otherwise the composite is cropped to the box. -/
def trimTransparentEdges (im : PImage) : PImage :=
  match getbboxAlpha im with
  | none => im
  | some (l, t, r, b) =>
      if l = 0 ∧ t = 0 ∧ r = im.width ∧ b = im.height then im
      else cropBox im l t r b

theorem cropBox_full (im : PImage) : cropBox im 0 0 im.width im.height = im := by
  cases im with
  | mk w h f =>
    unfold cropBox
    simp

/-- C9: trimming is a total no-op on input whose alpha is zero everywhere
(no crash, input returned unchanged), and on any other input it crops
exactly to the bounding box of the alpha-positive pixels: the result is the
crop to `(l, t, r, b)`, every alpha-positive pixel lies inside that box, and
each of the four box edges touches an alpha-positive pixel. -/
theorem trim_transparent_edges_spec (im : PImage) :
    ((∀ x y, x < im.width → y < im.height → (im.px x y).a = 0) →
        trimTransparentEdges im = im) ∧
    (∀ l t r b, getbboxAlpha im = some (l, t, r, b) →
        trimTransparentEdges im = cropBox im l t r b ∧
        (∀ x y, x < im.width → y < im.height → (im.px x y).a ≠ 0 →
          l ≤ x ∧ x < r ∧ t ≤ y ∧ y < b) ∧
        ((∃ p ∈ alphaSet im, p.1 = l) ∧ (∃ p ∈ alphaSet im, p.1 + 1 = r) ∧
         (∃ p ∈ alphaSet im, p.2 = t) ∧ (∃ p ∈ alphaSet im, p.2 + 1 = b))) := by
  constructor
  · intro h
    have hempty : alphaSet im = ∅ := by
      unfold alphaSet
      apply Finset.filter_false_of_mem
      intro p hp
      simp only [Finset.mem_product, Finset.mem_range] at hp
      simp [h p.1 p.2 hp.1 hp.2]
    have hnone : getbboxAlpha im = none := by
      unfold getbboxAlpha
      rw [dif_neg]
      rw [hempty]
      exact Finset.not_nonempty_empty
    unfold trimTransparentEdges
    rw [hnone]
  · intro l t r b hb
    unfold getbboxAlpha at hb
    split at hb
    case isFalse => exact absurd hb (by simp)
    case isTrue hne =>
      rw [Option.some_inj, Prod.mk.injEq, Prod.mk.injEq, Prod.mk.injEq] at hb
      obtain ⟨hl, ht, hr, hbm⟩ := hb
      have hmemx : ∀ x y, x < im.width → y < im.height → (im.px x y).a ≠ 0 →
          (x, y) ∈ alphaSet im := by
        intro x y hx hy ha
        unfold alphaSet
        simp only [Finset.mem_filter, Finset.mem_product, Finset.mem_range]
        exact ⟨⟨hx, hy⟩, ha⟩
      refine ⟨?_, ?_, ?_⟩
      · unfold trimTransparentEdges getbboxAlpha
        rw [dif_pos hne, hl, ht, hr, hbm]
        dsimp only
        split_ifs with hfull
        · obtain ⟨h0, h1, h2, h3⟩ := hfull
          rw [h0, h1, h2, h3, cropBox_full]
        · rfl
      · intro x y hx hy ha
        have hmem := hmemx x y hx hy ha
        have hx1 : x ∈ (alphaSet im).image Prod.fst :=
          Finset.mem_image.mpr ⟨(x, y), hmem, rfl⟩
        have hy1 : y ∈ (alphaSet im).image Prod.snd :=
          Finset.mem_image.mpr ⟨(x, y), hmem, rfl⟩
        have e1 := Finset.min'_le _ x hx1
        have e2 := Finset.le_max' _ x hx1
        have e3 := Finset.min'_le _ y hy1
        have e4 := Finset.le_max' _ y hy1
        omega
      · refine ⟨?_, ?_, ?_, ?_⟩
        · obtain ⟨p, hp, hpe⟩ := Finset.mem_image.mp
            (Finset.min'_mem ((alphaSet im).image Prod.fst) (hne.image Prod.fst))
          exact ⟨p, hp, by omega⟩
        · obtain ⟨p, hp, hpe⟩ := Finset.mem_image.mp
            (Finset.max'_mem ((alphaSet im).image Prod.fst) (hne.image Prod.fst))
          exact ⟨p, hp, by omega⟩
        · obtain ⟨p, hp, hpe⟩ := Finset.mem_image.mp
            (Finset.min'_mem ((alphaSet im).image Prod.snd) (hne.image Prod.snd))
          exact ⟨p, hp, by omega⟩
        · obtain ⟨p, hp, hpe⟩ := Finset.mem_image.mp
            (Finset.max'_mem ((alphaSet im).image Prod.snd) (hne.image Prod.snd))
          exact ⟨p, hp, by omega⟩

/-- Concrete 2 x 2 image, fully transparent but with nonzero red channel:
with alpha-based bounds it must be left untouched by the trim. -/
def transparentRedImage : PImage := ⟨2, 2, fun _ _ => ⟨255, 0, 0, 0⟩⟩

/-- Concrete 2 x 2 image with a single opaque pixel at (1, 0). -/
def singleDotImage : PImage :=
  ⟨2, 2, fun x y => if x = 1 ∧ y = 0 then ⟨0, 0, 0, 255⟩ else ⟨0, 0, 0, 0⟩⟩

/-- C9 witness: the theorem applied at two concrete inputs — the fully
transparent canvas comes back unchanged, and the single-dot canvas is
cropped exactly to the dot's 1 x 1 bounding box. -/
theorem trim_transparent_edges_spec_witness :
    trimTransparentEdges transparentRedImage = transparentRedImage ∧
      trimTransparentEdges singleDotImage = cropBox singleDotImage 1 0 2 1 := by
  constructor
  · exact (trim_transparent_edges_spec transparentRedImage).1
      (fun _ _ _ _ => rfl)
  · exact ((trim_transparent_edges_spec singleDotImage).2 1 0 2 1 (by decide)).1

/-! ## Claim C10: pixel-substitution replacement mirrors the source image
(`PSDReplacer.load_and_validate` / `PSDReplacer.extract_parts`) -/

/-- Source-image preparation in `PSDReplacer.load_and_validate`: after
loading and converting to RGBA, the uploaded image is left-right flipped
(`self.source_image = ImageOps.mirror(self.source_image)`) before any part
is extracted. -/
def replacerLoadSource (source : PImage) : PImage := mirrorH source

/-- Translation of the per-part body of `PSDReplacer.extract_parts`: clamp
the part's bounding box to the source image, crop the (already mirrored)
source there, and keep the source color under the layer's alpha silhouette
(`(src_r, src_g, src_b, layer_a)` where `layer_a > 0`, transparent
elsewhere); `none` when the clamped region is empty (the part is skipped). -/
def extractPart (src : PImage) (l : Layer) : Option (PImage × (Nat × Nat)) :=
  let cx1 : Nat := (max 0 l.pos.1).toNat
  let cy1 : Nat := (max 0 l.pos.2).toNat
  let cx2 : Nat := (min (src.width : Int) (l.pos.1 + l.image.width)).toNat
  let cy2 : Nat := (min (src.height : Int) (l.pos.2 + l.image.height)).toNat
  if cx1 < cx2 ∧ cy1 < cy2 then
    some (⟨cx2 - cx1, cy2 - cy1, fun i j =>
      let sp := src.px (cx1 + i) (cy1 + j)
      let lp := l.image.px i j
      if lp.a > 0 then ⟨sp.r, sp.g, sp.b, lp.a⟩ else ⟨0, 0, 0, 0⟩⟩,
      (cx1, cy1))
  else none

/-- C10: for a part layer whose bounding box lies inside the source canvas,
the extracted part raster takes its color channels from the horizontally
mirrored source image at the part's bounding box — pixel `(i, j)` of the
part reads original-source column `width - 1 - (x1 + i)` — with the layer's
own alpha as silhouette. -/
theorem replacer_mirrors_source (source : PImage) (l : Layer)
    (hx1 : 0 ≤ l.pos.1) (hy1 : 0 ≤ l.pos.2)
    (hx2 : l.pos.1 + l.image.width ≤ (source.width : Int))
    (hy2 : l.pos.2 + l.image.height ≤ (source.height : Int))
    (hw : 1 ≤ l.image.width) (hh : 1 ≤ l.image.height) :
    ∃ res : PImage,
      extractPart (replacerLoadSource source) l =
        some (res, (l.pos.1.toNat, l.pos.2.toNat)) ∧
      res.width = l.image.width ∧ res.height = l.image.height ∧
      ∀ i j, i < res.width → j < res.height →
        res.px i j =
          if (l.image.px i j).a > 0 then
            ⟨(source.px (source.width - 1 - (l.pos.1.toNat + i)) (l.pos.2.toNat + j)).r,
             (source.px (source.width - 1 - (l.pos.1.toNat + i)) (l.pos.2.toNat + j)).g,
             (source.px (source.width - 1 - (l.pos.1.toNat + i)) (l.pos.2.toNat + j)).b,
             (l.image.px i j).a⟩
          else ⟨0, 0, 0, 0⟩ := by
  have e1 : (max 0 l.pos.1).toNat = l.pos.1.toNat := by omega
  have e2 : (max 0 l.pos.2).toNat = l.pos.2.toNat := by omega
  have e3 : (min ((replacerLoadSource source).width : Int)
      (l.pos.1 + l.image.width)).toNat = l.pos.1.toNat + l.image.width := by
    have : (replacerLoadSource source).width = source.width := rfl
    rw [this]; omega
  have e4 : (min ((replacerLoadSource source).height : Int)
      (l.pos.2 + l.image.height)).toNat = l.pos.2.toNat + l.image.height := by
    have : (replacerLoadSource source).height = source.height := rfl
    rw [this]; omega
  refine ⟨⟨l.pos.1.toNat + l.image.width - l.pos.1.toNat,
    l.pos.2.toNat + l.image.height - l.pos.2.toNat, fun i j =>
      let sp := (replacerLoadSource source).px (l.pos.1.toNat + i) (l.pos.2.toNat + j)
      let lp := l.image.px i j
      if lp.a > 0 then ⟨sp.r, sp.g, sp.b, lp.a⟩ else ⟨0, 0, 0, 0⟩⟩, ?_, ?_, ?_, ?_⟩
  · unfold extractPart
    rw [e1, e2, e3, e4, if_pos (by omega)]
  · simp
  · simp
  · intro i j hi hj
    rfl

/-- Concrete 2 x 2 source whose left and right columns differ. -/
def demoSource : PImage :=
  ⟨2, 2, fun x _ => if x = 0 then ⟨10, 20, 30, 255⟩ else ⟨40, 50, 60, 255⟩⟩

/-- Concrete opaque 1 x 1 part layer at the origin. -/
def demoPartLayer : Layer :=
  { name := "part1".toList, image := ⟨1, 1, fun _ _ => ⟨0, 0, 0, 255⟩⟩, pos := (0, 0) }

/-- C10 witness: the theorem applied to the concrete source and part layer. -/
theorem replacer_mirrors_source_witness :
    ∃ res : PImage,
      extractPart (replacerLoadSource demoSource) demoPartLayer =
        some (res, (demoPartLayer.pos.1.toNat, demoPartLayer.pos.2.toNat)) ∧
      res.width = demoPartLayer.image.width ∧
      res.height = demoPartLayer.image.height ∧
      ∀ i j, i < res.width → j < res.height →
        res.px i j =
          if (demoPartLayer.image.px i j).a > 0 then
            ⟨(demoSource.px (demoSource.width - 1 - (demoPartLayer.pos.1.toNat + i))
                (demoPartLayer.pos.2.toNat + j)).r,
             (demoSource.px (demoSource.width - 1 - (demoPartLayer.pos.1.toNat + i))
                (demoPartLayer.pos.2.toNat + j)).g,
             (demoSource.px (demoSource.width - 1 - (demoPartLayer.pos.1.toNat + i))
                (demoPartLayer.pos.2.toNat + j)).b,
             (demoPartLayer.image.px i j).a⟩
          else ⟨0, 0, 0, 0⟩ :=
  replacer_mirrors_source demoSource demoPartLayer (by decide) (by decide)
    (by decide) (by decide) (by decide) (by decide)

/-! ## Claim C4: inward flip-and-translate
(`InsideTransformer` in `src/backend/transformer_inside.py`) -/

/-- Move distances of `InsideTransformer._calculate_transformations`: part1
moves right by its width, part2 down by its height, part3 left by its width,
part4 up by its height. -/
def insideMove (role : List Char) (w h : Nat) : Int × Int :=
  if role = "part1".toList then ((w : Int), 0)
  else if role = "part2".toList then (0, (h : Int))
  else if role = "part3".toList then (-(w : Int), 0)
  else if role = "part4".toList then (0, -(h : Int))
  else (0, 0)

/-- Flip applied by `InsideTransformer._create_transformed_layers`: part1 and
part3 are mirrored (`ImageOps.mirror`), part2 and part4 flipped
(`ImageOps.flip`), everything else untouched. -/
def insideFlipImage (role : List Char) (im : PImage) : PImage :=
  if role = "part1".toList ∨ role = "part3".toList then mirrorH im
  else if role = "part2".toList ∨ role = "part4".toList then flipV im
  else im

/-- Per-layer action of `InsideTransformer.step4_transform_layers`: a layer
whose sanitized lowercased name is a part role is flipped and given the new
position computed from the detected layer's bounds (dictionary entry, last
matching layer wins); `view` and unrecognized layers keep image and
position. -/
def insideTransformLayer (layers : List Layer) (l : Layer) : Layer :=
  let role := roleOf l.name
  if role ∈ partRoles then
    match layerInfoFind layers role with
    | some info =>
        { name := l.name,
          image := insideFlipImage role l.image,
          pos := (info.pos.1 + (insideMove role info.image.width info.image.height).1,
                  info.pos.2 + (insideMove role info.image.width info.image.height).2) }
    | none => l
  else l

/-- The inward transform on a whole layer set; the output canvas keeps the
input canvas size (`canvas_width = self.psd.width` in
`_write_transformed_psd`). -/
def insideTransform (s : LayerSet) : LayerSet :=
  { canvasW := s.canvasW, canvasH := s.canvasH,
    layers := s.layers.map (insideTransformLayer s.layers) }

/-- Validation of `step1_validate_psd`: every required role is found. -/
def validLayerSet (s : LayerSet) : Prop :=
  ∀ r ∈ requiredRoles, (layerInfoFind s.layers r).isSome

/-- C4: on a valid LayerSet the inward transform keeps the canvas size and
maps each layer as the claim states: part1/part3 are mirrored about their
own center and translated by plus/minus their own width, part2/part4 are
flipped and translated by plus/minus their own height, and `view` and
unrecognized layers are untouched. (The per-role equations assume the layer
is the one the role dictionary found, which holds whenever role names are
unique.) -/
theorem inside_transform_spec (s : LayerSet) (hvalid : validLayerSet s) :
    (insideTransform s).canvasW = s.canvasW ∧
    (insideTransform s).canvasH = s.canvasH ∧
    (insideTransform s).layers = s.layers.map (insideTransformLayer s.layers) ∧
    ∀ l ∈ s.layers,
      (roleOf l.name ∉ partRoles → insideTransformLayer s.layers l = l) ∧
      (layerInfoFind s.layers (roleOf l.name) = some l →
        (roleOf l.name = "part1".toList →
          insideTransformLayer s.layers l =
            { name := l.name, image := mirrorH l.image,
              pos := (l.pos.1 + l.image.width, l.pos.2) }) ∧
        (roleOf l.name = "part2".toList →
          insideTransformLayer s.layers l =
            { name := l.name, image := flipV l.image,
              pos := (l.pos.1, l.pos.2 + l.image.height) }) ∧
        (roleOf l.name = "part3".toList →
          insideTransformLayer s.layers l =
            { name := l.name, image := mirrorH l.image,
              pos := (l.pos.1 - l.image.width, l.pos.2) }) ∧
        (roleOf l.name = "part4".toList →
          insideTransformLayer s.layers l =
            { name := l.name, image := flipV l.image,
              pos := (l.pos.1, l.pos.2 - l.image.height) })) := by
  refine ⟨rfl, rfl, rfl, ?_⟩
  intro l _
  constructor
  · intro hnot
    unfold insideTransformLayer
    rw [if_neg hnot]
  · intro hfind
    refine ⟨?_, ?_, ?_, ?_⟩ <;> intro hrole <;> rw [hrole] at hfind <;>
      unfold insideTransformLayer <;> rw [hrole] <;> simp at hfind <;>
      simp [hfind, insideMove, insideFlipImage, partRoles, sub_eq_add_neg]

/-- Concrete valid five-role layer set for witnesses. -/
def demoView : Layer :=
  { name := "view".toList, image := ⟨4, 4, fun _ _ => ⟨1, 1, 1, 255⟩⟩, pos := (10, 10) }

def demoP1 : Layer :=
  { name := "part1".toList, image := ⟨2, 3, fun _ _ => ⟨2, 2, 2, 255⟩⟩, pos := (5, 6) }

def demoP2 : Layer :=
  { name := "part2".toList, image := ⟨3, 2, fun _ _ => ⟨3, 3, 3, 255⟩⟩, pos := (7, 8) }

def demoP3 : Layer :=
  { name := "part3".toList, image := ⟨2, 2, fun _ _ => ⟨4, 4, 4, 255⟩⟩, pos := (9, 1) }

def demoP4 : Layer :=
  { name := "part4".toList, image := ⟨1, 2, fun _ _ => ⟨5, 5, 5, 255⟩⟩, pos := (2, 3) }

def demoInsideSet : LayerSet :=
  { canvasW := 100, canvasH := 100, layers := [demoView, demoP1, demoP2, demoP3, demoP4] }

/-- C4 witness: the theorem applied to a concrete valid set; its `part1`
layer is mirrored and moved right by its own width. -/
theorem inside_transform_spec_witness :
    insideTransformLayer demoInsideSet.layers demoP1 =
      { name := demoP1.name, image := mirrorH demoP1.image,
        pos := (demoP1.pos.1 + demoP1.image.width, demoP1.pos.2) } :=
  (((inside_transform_spec demoInsideSet (by unfold validLayerSet; decide)).2.2.2 demoP1
      (by simp [demoInsideSet])).2 (by rfl)).1 (by decide)

/-! ## Claim C5: outward expand-and-translate
(`BinaryPSDTransformer` in `src/scripts/transform_to_outside.py`) -/

theorem lastWins_found (layers : List Layer) (p : Layer → Prop) [DecidablePred p]
    (acc : Option Layer) (x : Layer)
    (h : layers.foldl (fun a l => if p l then some l else a) acc = some x) :
    p x ∨ acc = some x := by
  induction layers generalizing acc with
  | nil => exact Or.inr h
  | cons hd t ih =>
    rw [List.foldl_cons] at h
    rcases ih _ h with hp | hacc
    · exact Or.inl hp
    · by_cases hph : p hd
      · rw [if_pos hph, Option.some_inj] at hacc
        exact Or.inl (hacc ▸ hph)
      · rw [if_neg hph] at hacc
        exact Or.inr hacc

/-- New canvas size of `step2_calculate_transformations`:
`view.width + part1.width + part3.width + 400` by
`view.height + part2.height + part4.height + 400` (400 is the padding
constant hard-coded in the source), or failure when a role is missing. -/
def outsideNewSize (s : LayerSet) : Option (Nat × Nat) :=
  match outsideFind s.layers "view".toList, outsideFind s.layers "part1".toList,
      outsideFind s.layers "part2".toList, outsideFind s.layers "part3".toList,
      outsideFind s.layers "part4".toList with
  | some lv, some l1, some l2, some l3, some l4 =>
      some (lv.image.width + l1.image.width + l3.image.width + 400,
            lv.image.height + l2.image.height + l4.image.height + 400)
  | _, _, _, _, _ => none

/-- Final position of `_calculate_final_positions`: re-center by the offset,
then shift part1 left by part1's width, part2 up by part2's height, part3
right by part3's width, part4 down by part4's height (widths/heights taken
from the role dictionary, as `self.part_bounds` is). -/
def outsideFinalPos (s : LayerSet) (offX offY : Int) (l : Layer) : Int × Int :=
  let cx := l.pos.1 + offX
  let cy := l.pos.2 + offY
  let nm := outsideRoleOf l.name
  if nm = "part1".toList then
    match outsideFind s.layers "part1".toList with
    | some lp => (cx - lp.image.width, cy)
    | none => (cx, cy)
  else if nm = "part2".toList then
    match outsideFind s.layers "part2".toList with
    | some lp => (cx, cy - lp.image.height)
    | none => (cx, cy)
  else if nm = "part3".toList then
    match outsideFind s.layers "part3".toList with
    | some lp => (cx + lp.image.width, cy)
    | none => (cx, cy)
  else if nm = "part4".toList then
    match outsideFind s.layers "part4".toList with
    | some lp => (cx, cy + lp.image.height)
    | none => (cx, cy)
  else (cx, cy)

/-- Per-layer action of `_modify_psd_binary`: look up the layer's entry in
the raw-name-keyed `final_positions` dictionary (last same-named layer
wins), flip the image when the entry's lowercased name is a part role
(mirror for part1/part3, vertical flip for part2/part4), and take the
entry's final position; a layer without an entry is dropped. -/
def outsideTransformLayer (s : LayerSet) (offX offY : Int) (l : Layer) : Option Layer :=
  match lastByName s.layers l.name with
  | some e =>
      let nm := outsideRoleOf e.name
      let img :=
        if nm = "part1".toList ∨ nm = "part3".toList then mirrorH l.image
        else if nm = "part2".toList ∨ nm = "part4".toList then flipV l.image
        else l.image
      some { name := l.name, image := img, pos := outsideFinalPos s offX offY e }
  | none => none

/-- The outward transform: enlarge the canvas, compute the centering offset
with Python floor division, and rebuild the layer list. -/
def outsideTransform (s : LayerSet) : Option LayerSet :=
  match outsideNewSize s with
  | none => none
  | some (newW, newH) =>
      let offX := Int.fdiv ((newW : Int) - (s.canvasW : Int)) 2
      let offY := Int.fdiv ((newH : Int) - (s.canvasH : Int)) 2
      some { canvasW := newW, canvasH := newH,
             layers := s.layers.filterMap (outsideTransformLayer s offX offY) }

/-- C5: for a layer set whose five roles are found (the transformer validates
this first), the outward transform enlarges the canvas to exactly
`(view.w + part1.w + part3.w + 400) x (view.h + part2.h + part4.h + 400)`,
offsets every layer by the floor-divided centering offset
`((newW - oldW)/2, (newH - oldH)/2)`, leaves non-part layers unflipped, and
flips each part layer as in the inward table while shifting it by its own
width/height opposite to the inward direction (part1 left, part2 up, part3
right, part4 down). The `lastByName` hypotheses say each of these layers is
the one its raw-name dictionary entry stores, which holds whenever raw layer
names are unique. -/
theorem outside_transform_spec (s : LayerSet) (lv l1 l2 l3 l4 : Layer)
    (hv : outsideFind s.layers "view".toList = some lv)
    (h1 : outsideFind s.layers "part1".toList = some l1)
    (h2 : outsideFind s.layers "part2".toList = some l2)
    (h3 : outsideFind s.layers "part3".toList = some l3)
    (h4 : outsideFind s.layers "part4".toList = some l4)
    (hn1 : lastByName s.layers l1.name = some l1)
    (hn2 : lastByName s.layers l2.name = some l2)
    (hn3 : lastByName s.layers l3.name = some l3)
    (hn4 : lastByName s.layers l4.name = some l4) :
    ∃ (t : LayerSet) (offX offY : Int),
      outsideTransform s = some t ∧
      t.canvasW = lv.image.width + l1.image.width + l3.image.width + 400 ∧
      t.canvasH = lv.image.height + l2.image.height + l4.image.height + 400 ∧
      offX = Int.fdiv ((t.canvasW : Int) - (s.canvasW : Int)) 2 ∧
      offY = Int.fdiv ((t.canvasH : Int) - (s.canvasH : Int)) 2 ∧
      t.layers = s.layers.filterMap (outsideTransformLayer s offX offY) ∧
      (∀ l, lastByName s.layers l.name = some l →
        outsideRoleOf l.name ∉ partRoles →
        outsideTransformLayer s offX offY l =
          some { name := l.name, image := l.image,
                 pos := (l.pos.1 + offX, l.pos.2 + offY) }) ∧
      outsideTransformLayer s offX offY l1 =
        some { name := l1.name, image := mirrorH l1.image,
               pos := (l1.pos.1 + offX - l1.image.width, l1.pos.2 + offY) } ∧
      outsideTransformLayer s offX offY l2 =
        some { name := l2.name, image := flipV l2.image,
               pos := (l2.pos.1 + offX, l2.pos.2 + offY - l2.image.height) } ∧
      outsideTransformLayer s offX offY l3 =
        some { name := l3.name, image := mirrorH l3.image,
               pos := (l3.pos.1 + offX + l3.image.width, l3.pos.2 + offY) } ∧
      outsideTransformLayer s offX offY l4 =
        some { name := l4.name, image := flipV l4.image,
               pos := (l4.pos.1 + offX, l4.pos.2 + offY + l4.image.height) } := by
  have hr1 : outsideRoleOf l1.name = "part1".toList := by
    rcases lastWins_found s.layers _ none l1 h1 with h | h
    · exact h
    · simp at h
  have hr2 : outsideRoleOf l2.name = "part2".toList := by
    rcases lastWins_found s.layers _ none l2 h2 with h | h
    · exact h
    · simp at h
  have hr3 : outsideRoleOf l3.name = "part3".toList := by
    rcases lastWins_found s.layers _ none l3 h3 with h | h
    · exact h
    · simp at h
  have hr4 : outsideRoleOf l4.name = "part4".toList := by
    rcases lastWins_found s.layers _ none l4 h4 with h | h
    · exact h
    · simp at h
  have hsize : outsideNewSize s =
      some (lv.image.width + l1.image.width + l3.image.width + 400,
            lv.image.height + l2.image.height + l4.image.height + 400) := by
    unfold outsideNewSize
    rw [hv, h1, h2, h3, h4]
  have htrans : outsideTransform s = some
      { canvasW := lv.image.width + l1.image.width + l3.image.width + 400,
        canvasH := lv.image.height + l2.image.height + l4.image.height + 400,
        layers := s.layers.filterMap (outsideTransformLayer s
          (Int.fdiv (((lv.image.width + l1.image.width + l3.image.width + 400 : Nat) : Int)
            - (s.canvasW : Int)) 2)
          (Int.fdiv (((lv.image.height + l2.image.height + l4.image.height + 400 : Nat) : Int)
            - (s.canvasH : Int)) 2)) } := by
    unfold outsideTransform
    rw [hsize]
  refine ⟨_, _, _, htrans, rfl, rfl, rfl, rfl, rfl, ?_, ?_, ?_, ?_, ?_⟩
  · intro l hlast hnot
    have e1 : ¬(outsideRoleOf l.name = "part1".toList) := by
      intro he; exact hnot (by rw [he]; decide)
    have e2 : ¬(outsideRoleOf l.name = "part2".toList) := by
      intro he; exact hnot (by rw [he]; decide)
    have e3 : ¬(outsideRoleOf l.name = "part3".toList) := by
      intro he; exact hnot (by rw [he]; decide)
    have e4 : ¬(outsideRoleOf l.name = "part4".toList) := by
      intro he; exact hnot (by rw [he]; decide)
    simp only [String.toList] at e1 e2 e3 e4
    unfold outsideTransformLayer outsideFinalPos
    rw [hlast]
    simp [e1, e2, e3, e4]
  · have h1x := h1
    have hr1x := hr1
    simp only [String.toList] at h1x hr1x
    unfold outsideTransformLayer outsideFinalPos
    rw [hn1]
    simp [hr1x, h1x]
  · have h2x := h2
    have hr2x := hr2
    simp only [String.toList] at h2x hr2x
    unfold outsideTransformLayer outsideFinalPos
    rw [hn2]
    simp [hr2x, h2x]
  · have h3x := h3
    have hr3x := hr3
    simp only [String.toList] at h3x hr3x
    unfold outsideTransformLayer outsideFinalPos
    rw [hn3]
    simp [hr3x, h3x]
  · have h4x := h4
    have hr4x := hr4
    simp only [String.toList] at h4x hr4x
    unfold outsideTransformLayer outsideFinalPos
    rw [hn4]
    simp [hr4x, h4x]

/-- C5 witness: the theorem applied to the concrete five-role set (whose
names are already lowercase, so the lower-only lookup finds them). -/
theorem outside_transform_spec_witness :
    ∃ (t : LayerSet) (offX offY : Int),
      outsideTransform demoInsideSet = some t ∧
      t.canvasW = demoView.image.width + demoP1.image.width + demoP3.image.width + 400 ∧
      t.canvasH = demoView.image.height + demoP2.image.height + demoP4.image.height + 400 ∧
      offX = Int.fdiv ((t.canvasW : Int) - (demoInsideSet.canvasW : Int)) 2 ∧
      offY = Int.fdiv ((t.canvasH : Int) - (demoInsideSet.canvasH : Int)) 2 ∧
      t.layers = demoInsideSet.layers.filterMap
        (outsideTransformLayer demoInsideSet offX offY) ∧
      (∀ l, lastByName demoInsideSet.layers l.name = some l →
        outsideRoleOf l.name ∉ partRoles →
        outsideTransformLayer demoInsideSet offX offY l =
          some { name := l.name, image := l.image,
                 pos := (l.pos.1 + offX, l.pos.2 + offY) }) ∧
      outsideTransformLayer demoInsideSet offX offY demoP1 =
        some { name := demoP1.name, image := mirrorH demoP1.image,
               pos := (demoP1.pos.1 + offX - demoP1.image.width, demoP1.pos.2 + offY) } ∧
      outsideTransformLayer demoInsideSet offX offY demoP2 =
        some { name := demoP2.name, image := flipV demoP2.image,
               pos := (demoP2.pos.1 + offX, demoP2.pos.2 + offY - demoP2.image.height) } ∧
      outsideTransformLayer demoInsideSet offX offY demoP3 =
        some { name := demoP3.name, image := mirrorH demoP3.image,
               pos := (demoP3.pos.1 + offX + demoP3.image.width, demoP3.pos.2 + offY) } ∧
      outsideTransformLayer demoInsideSet offX offY demoP4 =
        some { name := demoP4.name, image := flipV demoP4.image,
               pos := (demoP4.pos.1 + offX, demoP4.pos.2 + offY + demoP4.image.height) } :=
  outside_transform_spec demoInsideSet demoView demoP1 demoP2 demoP3 demoP4
    rfl rfl rfl rfl rfl rfl rfl rfl rfl

/-! ## DocumentEncoder layer records and channel data
(from `PSDReplacer._write_layers` / `_write_layer_data` in
`src/backend/psd_replacer.py` and the identical
`InsideTransformer._write_layer_info` / `_write_layer_channels` in
`src/backend/transformer_inside.py`) -/

/-- Big-endian 2-byte encoding (`struct.pack('>H', n)` for `n < 2^16`). -/
def u16be (n : Nat) : List Nat := [n / 256 % 256, n % 256]

/-- Position clamping applied by every writer: `x = max(0, int(x))`. -/
def clampPos (v : Int) : Nat := (max 0 v).toNat

/-- One raw channel plane: the bytes written by
`for pixel in pixels: f.write(struct.pack('>B', pixel[channel_idx]))`. -/
def channelPlane (im : PImage) (idx : Nat) : List Nat :=
  (getdata im).map (fun p => pixelChannel p idx)

/-- The image after the writers' clipping to the canvas
(`image.crop((0, 0, crop_w, crop_h))` with `crop_w = min(w, canvas_w - x)`). -/
def clipToCanvas (canvasW canvasH : Nat) (l : Layer) : PImage :=
  cropTL l.image (min l.image.width (canvasW - clampPos l.pos.1))
    (min l.image.height (canvasH - clampPos l.pos.2))

/-- Byte stream of `InsideTransformer._write_layer_channels` (also
`PSDReplacer._write_layer_data`): a layer fully right of or below the canvas
emits four empty 2-byte markers; otherwise the four clipped channel planes
are written for `channel_idx in [3, 0, 1, 2]` (A, R, G, B), each preceded by
a 2-byte zero compression marker. -/
def writeLayerChannels (canvasW canvasH : Nat) (l : Layer) : List Nat :=
  let x := clampPos l.pos.1
  let y := clampPos l.pos.2
  if canvasW ≤ x ∨ canvasH ≤ y then
    ([3, 0, 1, 2] : List Nat).flatMap (fun _ => u16be 0)
  else
    ([3, 0, 1, 2] : List Nat).flatMap
      (fun idx => u16be 0 ++ channelPlane (clipToCanvas canvasW canvasH l) idx)

/-- PIL `composite.paste(image, (x, y), image)`: blend `src` onto `dst` at
`(ox, oy)`, masked by the source's own alpha, clipped to the canvas. -/
def pasteAt (dst src : PImage) (ox oy : Nat) : PImage :=
  { width := dst.width, height := dst.height,
    px := fun px py =>
      if ox ≤ px ∧ px < ox + src.width ∧ oy ≤ py ∧ py < oy + src.height ∧
          px < dst.width ∧ py < dst.height then
        let sp := src.px (px - ox) (py - oy)
        let q := dst.px px py
        ⟨blendByte sp.a q.r sp.r, blendByte sp.a q.g sp.g,
          blendByte sp.a q.b sp.b, blendByte sp.a q.a sp.a⟩
      else dst.px px py }

/-- Composite canvas of `_write_composite_image`: start from a
`(255,255,255,0)` canvas and paste every layer at its clamped position when
that position lies inside the canvas. -/
def compositeImage (layers : List Layer) (w h : Nat) : PImage :=
  layers.foldl (fun acc l =>
      let x := clampPos l.pos.1
      let y := clampPos l.pos.2
      if x < w ∧ y < h then pasteAt acc l.image x y else acc)
    ⟨w, h, fun _ _ => ⟨255, 255, 255, 0⟩⟩

/-- Composite-image section: the caller writes one 2-byte zero compression
marker (`f.write(struct.pack('>H', 0))`), then `_write_composite_image`
writes the four whole-canvas planes for `channel_idx in [0, 1, 2, 3]`
(R, G, B, A) with no further markers. -/
def writeCompositeSection (layers : List Layer) (w h : Nat) : List Nat :=
  u16be 0 ++ ([0, 1, 2, 3] : List Nat).flatMap
    (fun idx => channelPlane (compositeImage layers w h) idx)

/-- Per-layer record of the layer-and-mask-info section, holding exactly the
variable fields the writer emits: clipped bounds, the
`(channelId, dataSize)` pairs, the Pascal-name bytes, and the channel data
blocks (compression marker plus plane). -/
structure LayerRecord where
  top : Nat
  left : Nat
  bottom : Nat
  right : Nat
  channelInfo : List (Int × Nat)
  nameBytes : List Nat
  channels : List (Nat × List Nat)

/-- Channel data blocks of `_write_layer_data` in structured form: the
2-byte zero marker and the plane bytes per channel, in order A, R, G, B. -/
def encodeLayerChannels (canvasW canvasH : Nat) (l : Layer) : List (Nat × List Nat) :=
  let x := clampPos l.pos.1
  let y := clampPos l.pos.2
  if canvasW ≤ x ∨ canvasH ≤ y then
    [(0, []), (0, []), (0, []), (0, [])]
  else
    [(0, channelPlane (clipToCanvas canvasW canvasH l) 3),
     (0, channelPlane (clipToCanvas canvasW canvasH l) 0),
     (0, channelPlane (clipToCanvas canvasW canvasH l) 1),
     (0, channelPlane (clipToCanvas canvasW canvasH l) 2)]

/-- Translation of the per-layer body of `PSDReplacer._write_layers`: clamp
the position to be non-negative, clip width/height so the bounds stay inside
the canvas (with a 1-pixel floor), write bounds `(top, left, bottom,
right)`, four channel-info pairs with ids `[-1, 0, 1, 2]` and
`dataSize = w*h + 2`, the ASCII name truncated to 255 bytes
(`name.encode('ascii')[:255]`, failing on non-ASCII names), and the channel
data. -/
def encodeLayerRecord (canvasW canvasH : Nat) (l : Layer) : Option LayerRecord :=
  if l.name.all (fun ch => ch.toNat ≤ 127) then
    let x := clampPos l.pos.1
    let y := clampPos l.pos.2
    let w := if canvasW < x + l.image.width then max 1 (canvasW - x) else l.image.width
    let h := if canvasH < y + l.image.height then max 1 (canvasH - y) else l.image.height
    some { top := y, left := x, bottom := y + h, right := x + w,
           channelInfo := [(-1, w*h+2), (0, w*h+2), (1, w*h+2), (2, w*h+2)],
           nameBytes := (l.name.map Char.toNat).take 255,
           channels := encodeLayerChannels canvasW canvasH l }
  else none

/-- The writer loop over the ordered layer list (records in order; encoding
fails if any name fails ASCII encoding). -/
def encodeLayers (canvasW canvasH : Nat) : List Layer → Option (List LayerRecord)
  | [] => some []
  | l :: t =>
      match encodeLayerRecord canvasW canvasH l, encodeLayers canvasW canvasH t with
      | some r, some rs => some (r :: rs)
      | _, _ => none

/-! Reference reader for the layout of spec section 4.6: names are the
Pascal-string bytes, the bounding box is `(left, top, right, bottom)`, and
the raster is rebuilt from the four uncompressed planes, which the layout
stores per layer in channel order A, R, G, B. -/

/-- Name read back from a layer record. -/
def decodeName (r : LayerRecord) : List Char := r.nameBytes.map Char.ofNat

/-- Bounding box `(x1, y1, x2, y2)` read back from a layer record. -/
def decodeBBox (r : LayerRecord) : Int × Int × Int × Int :=
  ((r.left : Int), (r.top : Int), (r.right : Int), (r.bottom : Int))

/-- Plane of the `i`-th stored channel block (layout order A, R, G, B). -/
def planeAt (r : LayerRecord) (i : Nat) : List Nat :=
  (r.channels.getD i (0, [])).2

/-- Raster read back from a layer record: dimensions from the bounds,
row-major pixels from the planes (channel blocks 0..3 hold A, R, G, B). -/
def decodeRaster (r : LayerRecord) : PImage :=
  let w := r.right - r.left
  { width := w, height := r.bottom - r.top,
    px := fun x y =>
      ⟨(planeAt r 1).getD (y * w + x) 0, (planeAt r 2).getD (y * w + x) 0,
        (planeAt r 3).getD (y * w + x) 0, (planeAt r 0).getD (y * w + x) 0⟩ }

/-! ## Claim C6: channel-order asymmetry of the encoded byte stream -/

theorem compositeImage_dims (layers : List Layer) (w h : Nat) :
    (compositeImage layers w h).width = w ∧ (compositeImage layers w h).height = h := by
  unfold compositeImage
  suffices hgen : ∀ acc : PImage,
      (layers.foldl (fun acc l =>
        let x := clampPos l.pos.1
        let y := clampPos l.pos.2
        if x < w ∧ y < h then pasteAt acc l.image x y else acc) acc).width = acc.width ∧
      (layers.foldl (fun acc l =>
        let x := clampPos l.pos.1
        let y := clampPos l.pos.2
        if x < w ∧ y < h then pasteAt acc l.image x y else acc) acc).height = acc.height by
    exact hgen _
  induction layers with
  | nil => intro acc; exact ⟨rfl, rfl⟩
  | cons hd t ih =>
    intro acc
    rw [List.foldl_cons]
    obtain ⟨hw, hh⟩ := ih
      (if clampPos hd.pos.1 < w ∧ clampPos hd.pos.2 < h then
        pasteAt acc hd.image (clampPos hd.pos.1) (clampPos hd.pos.2) else acc)
    constructor
    · rw [hw]
      by_cases hc : clampPos hd.pos.1 < w ∧ clampPos hd.pos.2 < h <;>
        simp [hc, pasteAt]
    · rw [hh]
      by_cases hc : clampPos hd.pos.1 < w ∧ clampPos hd.pos.2 < h <;>
        simp [hc, pasteAt]

/-- C6: for a layer whose clamped position is inside the canvas, the
per-layer channel data block is the four clipped channel planes in order
alpha, R, G, B, each preceded by its own 2-byte zero compression marker,
and the layer record declares channel ids `[-1, 0, 1, 2]` with zero
markers on every data block; the trailing composite-image section is a
single 2-byte zero marker followed by the four whole-canvas planes in order
R, G, B, A. -/
theorem channel_order_asymmetry (canvasW canvasH : Nat) (l : Layer) (layers : List Layer)
    (hx : clampPos l.pos.1 < canvasW) (hy : clampPos l.pos.2 < canvasH) :
    writeLayerChannels canvasW canvasH l =
      u16be 0 ++ (getdata (clipToCanvas canvasW canvasH l)).map (fun p => p.a)
      ++ (u16be 0 ++ (getdata (clipToCanvas canvasW canvasH l)).map (fun p => p.r)
      ++ (u16be 0 ++ (getdata (clipToCanvas canvasW canvasH l)).map (fun p => p.g)
      ++ (u16be 0 ++ (getdata (clipToCanvas canvasW canvasH l)).map (fun p => p.b)))) ∧
    (∀ r, encodeLayerRecord canvasW canvasH l = some r →
      r.channelInfo.map Prod.fst = [-1, 0, 1, 2] ∧
      r.channels.map Prod.fst = [0, 0, 0, 0]) ∧
    writeCompositeSection layers canvasW canvasH =
      u16be 0 ++ ((getdata (compositeImage layers canvasW canvasH)).map (fun p => p.r)
      ++ ((getdata (compositeImage layers canvasW canvasH)).map (fun p => p.g)
      ++ ((getdata (compositeImage layers canvasW canvasH)).map (fun p => p.b)
      ++ (getdata (compositeImage layers canvasW canvasH)).map (fun p => p.a)))) ∧
    (getdata (clipToCanvas canvasW canvasH l)).length =
      (clipToCanvas canvasW canvasH l).width * (clipToCanvas canvasW canvasH l).height ∧
    (getdata (compositeImage layers canvasW canvasH)).length = canvasW * canvasH := by
  have hcond : ¬(canvasW ≤ clampPos l.pos.1 ∨ canvasH ≤ clampPos l.pos.2) := by omega
  refine ⟨?_, ?_, ?_, ?_, ?_⟩
  · unfold writeLayerChannels
    rw [if_neg hcond]
    simp [channelPlane, pixelChannel, List.append_assoc]
  · intro r hr
    unfold encodeLayerRecord at hr
    split at hr
    case isFalse => exact absurd hr (by simp)
    case isTrue =>
      rw [Option.some_inj] at hr
      subst hr
      refine ⟨rfl, ?_⟩
      unfold encodeLayerChannels
      rw [if_neg hcond]
      rfl
  · unfold writeCompositeSection
    simp [channelPlane, pixelChannel, List.append_assoc]
  · simp [getdata]
  · obtain ⟨hw, hh⟩ := compositeImage_dims layers canvasW canvasH
    simp [getdata, hw, hh]

/-- C6 witness: the theorem applied to the concrete part1 layer on a
100 x 100 canvas with the concrete five-layer list. -/
theorem channel_order_asymmetry_witness :
    writeLayerChannels 100 100 demoP1 =
      u16be 0 ++ (getdata (clipToCanvas 100 100 demoP1)).map (fun p => p.a)
      ++ (u16be 0 ++ (getdata (clipToCanvas 100 100 demoP1)).map (fun p => p.r)
      ++ (u16be 0 ++ (getdata (clipToCanvas 100 100 demoP1)).map (fun p => p.g)
      ++ (u16be 0 ++ (getdata (clipToCanvas 100 100 demoP1)).map (fun p => p.b)))) :=
  (channel_order_asymmetry 100 100 demoP1 demoInsideSet.layers (by decide) (by decide)).1

/-! ## Claim C1: round-trip through the binary encoder -/

theorem cropTL_self (im : PImage) : cropTL im im.width im.height = im := by
  cases im; rfl

theorem getdata_map_getD (im : PImage) (f : Pix → Nat) (x y : Nat)
    (hx : x < im.width) (hy : y < im.height) :
    ((getdata im).map f).getD (y * im.width + x) 0 = f (im.px x y) := by
  have hw : 0 < im.width := by omega
  have hidx : y * im.width + x < im.width * im.height := by
    have h1 : y * im.width + x < (y + 1) * im.width := by rw [Nat.succ_mul]; omega
    have h2 : (y + 1) * im.width ≤ im.height * im.width := Nat.mul_le_mul_right _ hy
    calc y * im.width + x < (y + 1) * im.width := h1
      _ ≤ im.height * im.width := h2
      _ = im.width * im.height := Nat.mul_comm _ _
  have hmod : (y * im.width + x) % im.width = x := by
    rw [Nat.add_comm, Nat.add_mul_mod_self_right]
    exact Nat.mod_eq_of_lt hx
  have hdiv : (y * im.width + x) / im.width = y := by
    rw [Nat.add_comm, Nat.add_mul_div_right _ _ hw, Nat.div_eq_of_lt hx]
    omega
  unfold getdata
  rw [List.map_map, List.getD_eq_getElem?_getD, List.getElem?_map,
    show (List.range (im.width * im.height))[y * im.width + x]? =
      some (y * im.width + x) by simp [List.getElem?_range, hidx]]
  simp [hmod, hdiv]

/-- C1 counterexample input: a 2 x 2 layer at negative position (-1, 0). -/
def cexLayer : Layer :=
  { name := ['a'], image := ⟨2, 2, fun _ _ => ⟨7, 7, 7, 255⟩⟩, pos := (-1, 0) }

/-- C1 counterexample: on a 4 x 4 canvas the encoder clamps the layer's
negative position with `max(0, x)`, so the re-decoded bounding box is
`(0, 0, 2, 2)` instead of the input's `(-1, 0, 1, 2)` — the claimed
round-trip identity fails for negative positions. -/
theorem encode_roundtrip_counterexample :
    (encodeLayerRecord 4 4 cexLayer).map decodeBBox ≠
      some (cexLayer.pos.1, cexLayer.pos.2,
        cexLayer.pos.1 + cexLayer.image.width,
        cexLayer.pos.2 + cexLayer.image.height) := by
  decide

/-- C1 amended, per layer: a layer with non-negative position, nonempty
raster fitting inside the canvas, and an ASCII name of at most 255 bytes is
encoded to a record from which the reference reader recovers the name, the
bounding box, and every RGBA pixel exactly. -/
theorem encode_roundtrip_layer (canvasW canvasH : Nat) (l : Layer)
    (hx : 0 ≤ l.pos.1) (hy : 0 ≤ l.pos.2)
    (hw1 : 1 ≤ l.image.width) (hh1 : 1 ≤ l.image.height)
    (hw : l.pos.1.toNat + l.image.width ≤ canvasW)
    (hh : l.pos.2.toNat + l.image.height ≤ canvasH)
    (hascii : l.name.all (fun ch => ch.toNat ≤ 127) = true)
    (hlen : l.name.length ≤ 255) :
    ∃ r, encodeLayerRecord canvasW canvasH l = some r ∧
      decodeName r = l.name ∧
      decodeBBox r = (l.pos.1, l.pos.2, l.pos.1 + (l.image.width : Int),
        l.pos.2 + (l.image.height : Int)) ∧
      (decodeRaster r).width = l.image.width ∧
      (decodeRaster r).height = l.image.height ∧
      ∀ x y, x < l.image.width → y < l.image.height →
        (decodeRaster r).px x y = l.image.px x y := by
  have hxc : clampPos l.pos.1 = l.pos.1.toNat := by unfold clampPos; omega
  have hyc : clampPos l.pos.2 = l.pos.2.toNat := by unfold clampPos; omega
  have hwif : ¬(canvasW < clampPos l.pos.1 + l.image.width) := by rw [hxc]; omega
  have hhif : ¬(canvasH < clampPos l.pos.2 + l.image.height) := by rw [hyc]; omega
  have hcond : ¬(canvasW ≤ clampPos l.pos.1 ∨ canvasH ≤ clampPos l.pos.2) := by
    rw [hxc, hyc]; omega
  have hclip : clipToCanvas canvasW canvasH l = l.image := by
    unfold clipToCanvas
    rw [hxc, hyc, Nat.min_eq_left (by omega), Nat.min_eq_left (by omega), cropTL_self]
  unfold encodeLayerRecord
  rw [if_pos hascii]
  dsimp only
  rw [if_neg hwif, if_neg hhif]
  refine ⟨_, rfl, ?_, ?_, ?_, ?_, ?_⟩
  · dsimp [decodeName]
    rw [List.take_of_length_le (by simpa using hlen), List.map_map]
    simp [Function.comp_def, Char.ofNat_toNat]
  · dsimp [decodeBBox]
    simp only [Prod.mk.injEq]
    refine ⟨by omega, by omega, by omega, by omega⟩
  · dsimp [decodeRaster]
    omega
  · dsimp [decodeRaster]
    omega
  · intro x y hgx hgy
    dsimp [decodeRaster, planeAt]
    unfold encodeLayerChannels
    rw [if_neg hcond, hclip]
    have hwidth : clampPos l.pos.1 + l.image.width - clampPos l.pos.1 = l.image.width := by
      omega
    rw [hwidth]
    show (⟨((getdata l.image).map (fun p => pixelChannel p 0)).getD (y * l.image.width + x) 0,
        ((getdata l.image).map (fun p => pixelChannel p 1)).getD (y * l.image.width + x) 0,
        ((getdata l.image).map (fun p => pixelChannel p 2)).getD (y * l.image.width + x) 0,
        ((getdata l.image).map (fun p => pixelChannel p 3)).getD (y * l.image.width + x) 0⟩ : Pix)
      = l.image.px x y
    rw [getdata_map_getD l.image _ x y hgx hgy, getdata_map_getD l.image _ x y hgx hgy,
      getdata_map_getD l.image _ x y hgx hgy, getdata_map_getD l.image _ x y hgx hgy]
    rfl

/-- C1 amended, whole document: encoding the ordered layer list and
re-decoding it with the reference reader preserves, layer by layer, the
name, the bounding box, and the full RGBA raster, for every LayerSet whose
layers sit at non-negative positions inside the canvas with ASCII names of
at most 255 bytes. -/
theorem encode_roundtrip (s : LayerSet)
    (hall : ∀ l ∈ s.layers, 0 ≤ l.pos.1 ∧ 0 ≤ l.pos.2 ∧
      1 ≤ l.image.width ∧ 1 ≤ l.image.height ∧
      l.pos.1.toNat + l.image.width ≤ s.canvasW ∧
      l.pos.2.toNat + l.image.height ≤ s.canvasH ∧
      l.name.all (fun ch => ch.toNat ≤ 127) = true ∧ l.name.length ≤ 255) :
    ∃ rs, encodeLayers s.canvasW s.canvasH s.layers = some rs ∧
      List.Forall₂ (fun r l =>
        decodeName r = l.name ∧
        decodeBBox r = (l.pos.1, l.pos.2, l.pos.1 + (l.image.width : Int),
          l.pos.2 + (l.image.height : Int)) ∧
        (decodeRaster r).width = l.image.width ∧
        (decodeRaster r).height = l.image.height ∧
        ∀ x y, x < l.image.width → y < l.image.height →
          (decodeRaster r).px x y = l.image.px x y) rs s.layers := by
  have hgen : ∀ ls : List Layer, (∀ l ∈ ls, 0 ≤ l.pos.1 ∧ 0 ≤ l.pos.2 ∧
      1 ≤ l.image.width ∧ 1 ≤ l.image.height ∧
      l.pos.1.toNat + l.image.width ≤ s.canvasW ∧
      l.pos.2.toNat + l.image.height ≤ s.canvasH ∧
      l.name.all (fun ch => ch.toNat ≤ 127) = true ∧ l.name.length ≤ 255) →
      ∃ rs, encodeLayers s.canvasW s.canvasH ls = some rs ∧
        List.Forall₂ (fun r l =>
          decodeName r = l.name ∧
          decodeBBox r = (l.pos.1, l.pos.2, l.pos.1 + (l.image.width : Int),
            l.pos.2 + (l.image.height : Int)) ∧
          (decodeRaster r).width = l.image.width ∧
          (decodeRaster r).height = l.image.height ∧
          ∀ x y, x < l.image.width → y < l.image.height →
            (decodeRaster r).px x y = l.image.px x y) rs ls := by
    intro ls
    induction ls with
    | nil => intro _; exact ⟨[], rfl, List.Forall₂.nil⟩
    | cons hd t ih =>
      intro h2
      obtain ⟨e1, e2, e3, e4, e5, e6, e7, e8⟩ := h2 hd (by simp)
      obtain ⟨r, hr, hn, hb, hrw, hrh, hpx⟩ :=
        encode_roundtrip_layer s.canvasW s.canvasH hd e1 e2 e3 e4 e5 e6 e7 e8
      obtain ⟨rs, hrs, hPs⟩ := ih (fun a ha => h2 a (by simp [ha]))
      refine ⟨r :: rs, ?_, List.Forall₂.cons ⟨hn, hb, hrw, hrh, hpx⟩ hPs⟩
      unfold encodeLayers
      rw [hr, hrs]
  exact hgen s.layers hall

/-- C1 witness: the amended round-trip theorem applied to a concrete
single-layer document on a 10 x 10 canvas. -/
theorem encode_roundtrip_witness :
    ∃ rs, encodeLayers 10 10 [demoPartLayer] = some rs ∧
      List.Forall₂ (fun r l =>
        decodeName r = l.name ∧
        decodeBBox r = (l.pos.1, l.pos.2, l.pos.1 + (l.image.width : Int),
          l.pos.2 + (l.image.height : Int)) ∧
        (decodeRaster r).width = l.image.width ∧
        (decodeRaster r).height = l.image.height ∧
        ∀ x y, x < l.image.width → y < l.image.height →
          (decodeRaster r).px x y = l.image.px x y) rs [demoPartLayer] :=
  encode_roundtrip { canvasW := 10, canvasH := 10, layers := [demoPartLayer] }
    (by intro l hl; simp at hl; subst hl; refine ⟨by decide, by decide, by decide,
      by decide, by decide, by decide, by decide, by decide⟩)

end HolderDesign
